import Mathlib

/-!
Verification of the `doc_enum` repository: a self-numbering, self-documenting
enumeration base type (`AutoDocedEnum` in `doc_enum.py`) and a sample error
table with an exception constructor (`ErrorStatus` / `HTTPError` in
`sample.py`).

The Python code is shallowly embedded below.  Enumeration construction is
modelled after Python's `EnumMeta` member-creation loop specialised to
`AutoDocedEnum.__new__` / `AutoDocedEnum.__init__`: for each declaration the
auto counter is bumped, `__init__` validates the arguments and possibly
overrides the value, and a new member whose value compares equal (`==`) to an
existing member's value becomes an alias of it (standard `Enum` behaviour)
and is not added to the member list.
-/

set_option autoImplicit false

namespace DocEnum

/-- Universe of Python values that appear as enumeration values, descriptions
and `param` arguments in this repository: integers, strings, `None` and
lists. -/
inductive PyVal where
  | int (n : Int)
  | str (s : String)
  | none
  | list (xs : List PyVal)

mutual

/-- Python `==` on `PyVal` (structural; values of different kinds compare
unequal, lists compare elementwise — as Python does for these types). -/
def pyEq : PyVal → PyVal → Bool
  | .int a, .int b => a == b
  | .str a, .str b => a == b
  | .none, .none => true
  | .list a, .list b => pyEqList a b
  | _, _ => false

/-- Python `==` on lists of `PyVal`, elementwise. -/
def pyEqList : List PyVal → List PyVal → Bool
  | [], [] => true
  | a :: as, b :: bs => pyEq a b && pyEqList as bs
  | _, _ => false

end

mutual

/-- Python `repr` of the values above (strings are quoted, as inside
`str` of a list). -/
def pyRepr : PyVal → String
  | .int n => toString n
  | .str s => "\x27" ++ s ++ "\x27"
  | .none => "None"
  | .list xs => "[" ++ pyReprList xs ++ "]"

/-- Comma-separated `repr`s of list elements. -/
def pyReprList : List PyVal → String
  | [] => ""
  | [x] => pyRepr x
  | x :: y :: xs => pyRepr x ++ ", " ++ pyReprList (y :: xs)

end

/-- Python `str` of the values above (`str` of a list uses `repr` of the
elements, e.g. `str(["10001"]) = "[\x271 0001\x27]"` without the space). -/
def pyStr : PyVal → String
  | .int n => toString n
  | .str s => s
  | .none => "None"
  | .list xs => "[" ++ pyReprList xs ++ "]"

/-- Python truthiness of the values above (`if param:`). -/
def pyTruthy : PyVal → Bool
  | .int n => n != 0
  | .str s => s != ""
  | .none => false
  | .list xs => !xs.isEmpty

/-- Replace the first `\x7b\x7d` placeholder in a character list by `arg`. -/
def replaceFirstBrace : List Char → String → List Char
  | [], _ => []
  | '\x7b' :: '\x7d' :: rest, arg => arg.toList ++ rest
  | c :: rest, arg => c :: replaceFirstBrace rest arg

/-- Python `"...\x7b\x7d...".format(param)` for the templates of this
repository (each has at most one positional placeholder): the first
placeholder is replaced by `str(param)`. -/
def pyFormat (tmpl : String) (param : PyVal) : String :=
  String.mk (replaceFirstBrace tmpl.toList (pyStr param))

/-- A Python `dict` with string keys, in insertion order. -/
abbrev PyDict := List (String × PyVal)

/-- `d[k] = v`: overwrite in place if `k` is present, else append. -/
def dictSet (d : PyDict) (k : String) (v : PyVal) : PyDict :=
  if d.any (fun p => p.1 == k) then
    d.map (fun p => if p.1 == k then (k, v) else p)
  else d ++ [(k, v)]

/-- `d.get(k)`. -/
def dictGet (d : PyDict) (k : String) : Option PyVal :=
  (d.find? (fun p => p.1 == k)).map Prod.snd

/-- `d[k]` read as a string (the uses in the source always hit a string). -/
def dictGetStr (d : PyDict) (k : String) : String :=
  match dictGet d k with
  | some (.str s) => s
  | _ => ""

/-- Key list of a dict, in insertion order. -/
def dictKeys (d : PyDict) : List String := d.map Prod.fst

/-- The class-level attributes of an `AutoDocedEnum` subtype, with the
defaults of `doc_enum.py` lines 92-101 (`__initial_number__ = 1`,
`__dict_name__ = "name"`, `__dict_value__ = "value"`,
`__dict_doc__ = "doc"`). -/
structure EnumConfig where
  initial_number : Int := 1
  dict_name : String := "name"
  dict_value : String := "value"
  dict_doc : String := "doc"

/-- One constructed enumeration member: `name`, `_value_` and `__doc__`. -/
structure Member where
  name : String
  value : PyVal
  doc : String

/-- The mutable class state during construction: `__last_number__` and the
member list built so far. -/
structure EnumState where
  last_number : Int
  members : List Member

/-- The two `TypeError`s `AutoDocedEnum.__init__` can raise. -/
inductive InitError where
  | tooManyArgs
  | notConvertible

/-- `AutoDocedEnum.__init__(self, *args)` (doc_enum.py lines 113-126), given
the value `autoValue` already assigned by `__new__`.  More than two
positional arguments raise `TypeError`; unpacking `value, *doc = args` fails
on an empty `args` and the `except` clause converts that into the
`notConvertible` `TypeError`; one argument keeps the auto value and uses
`str(args[0])` as the doc; two arguments override the value with `args[0]`
and use `str(args[1])` as the doc.  Returns the final `(_value_, __doc__)`
pair. -/
def initMember (autoValue : PyVal) (args : List PyVal) :
    Except InitError (PyVal × String) :=
  if args.length > 2 then .error .tooManyArgs
  else
    match args with
    | [] => .error .notConvertible
    | [v] => .ok (autoValue, pyStr v)
    | v :: d :: _ => .ok (v, pyStr d)

/-- One step of the `EnumMeta` member-creation loop for a declaration
`name = args`: `__new__` bumps `__last_number__` and assigns it as the value
(doc_enum.py lines 103-111), `__init__` validates/overrides, and the alias
check drops the member when its value compares equal to an existing
member's. -/
def addMember (st : EnumState) (name : String) (args : List PyVal) :
    Except InitError EnumState :=
  match initMember (.int (st.last_number + 1)) args with
  | .error e => .error e
  | .ok (v, d) =>
    if st.members.any (fun m => pyEq m.value v) then
      .ok ⟨st.last_number + 1, st.members⟩
    else
      .ok ⟨st.last_number + 1, st.members ++ [⟨name, v, d⟩]⟩

/-- Run the member-creation loop over the remaining declarations. -/
def buildAux (st : EnumState) : List (String × List PyVal) →
    Except InitError EnumState
  | [] => .ok st
  | (n, args) :: rest =>
    match addMember st n args with
    | .error e => .error e
    | .ok st' => buildAux st' rest

/-- Construct an `AutoDocedEnum` subtype from its declarations (in class-body
order).  `__last_number__` starts at `__initial_number__ - 1` so that the
first auto-numbered member gets `__initial_number__`. -/
def buildEnum (cfg : EnumConfig) (decls : List (String × List PyVal)) :
    Except InitError (List Member) :=
  (buildAux ⟨cfg.initial_number - 1, []⟩ decls).map EnumState.members

/-- `AutoDocedEnum.get_choices` (doc_enum.py lines 128-140): the tuple of
`(item.value, item.__doc__)` over the members, in definition order. -/
def get_choices (ms : List Member) : List (PyVal × String) :=
  ms.map (fun m => (m.value, m.doc))

/-- `AutoDocedEnum.get_dict` (doc_enum.py lines 142-152): the dict literal
with the three configured keys mapped to name, value and doc. -/
def get_dict (cfg : EnumConfig) (m : Member) : PyDict :=
  dictSet (dictSet (dictSet [] cfg.dict_name (.str m.name))
    cfg.dict_value m.value) cfg.dict_doc (.str m.doc)

/-- `ErrorStatus.get_msg` (sample.py lines 65-87): start from `get_dict`; if
`param` is truthy (`if param:`), replace the doc-key entry by the formatted
template `dct[key].format(param)`. -/
def get_msg (cfg : EnumConfig) (m : Member) (param : PyVal) : PyDict :=
  if pyTruthy param then
    dictSet (get_dict cfg m) cfg.dict_doc
      (.str (pyFormat (dictGetStr (get_dict cfg m) cfg.dict_doc) param))
  else get_dict cfg m

/-- `HTTPError` (sample.py lines 7-14): carries `status` and `msg`. -/
structure HTTPError where
  status : PyVal
  msg : PyDict

/-- `ErrorStatus.get_exception` (sample.py lines 89-94): wrap `get_msg` and
the supplied status into an `HTTPError`. -/
def get_exception (cfg : EnumConfig) (m : Member) (status : PyVal)
    (param : PyVal) : HTTPError :=
  ⟨status, get_msg cfg m param⟩

/-! ### Basic lemmas about the embedded operations -/

mutual

/-- Python `==` is reflexive on the embedded values. -/
theorem pyEq_refl : (a : PyVal) → pyEq a a = true
  | .int a => by simp [pyEq]
  | .str s => by simp [pyEq]
  | .none => rfl
  | .list xs => by rw [pyEq]; exact pyEqList_refl xs

/-- Python `==` is reflexive on lists of embedded values. -/
theorem pyEqList_refl : (xs : List PyVal) → pyEqList xs xs = true
  | [] => rfl
  | x :: xs => by rw [pyEqList, pyEq_refl x, pyEqList_refl xs]; rfl

end

/-- Values that are not Python-`==` are distinct. -/
theorem ne_of_pyEq_false {a b : PyVal} (h : pyEq a b = false) : a ≠ b := by
  intro hab
  rw [hab, pyEq_refl] at h
  exact Bool.true_eq_false ▸ h

/-- A declaration with a single (description-only) argument appends a member
carrying the bumped auto value, provided that value is fresh. -/
theorem addMember_auto_step (st : EnumState) (nm : String) (v : PyVal)
    (h : st.members.any (fun m => pyEq m.value (.int (st.last_number + 1))) = false) :
    addMember st nm [v] =
      .ok ⟨st.last_number + 1,
        st.members ++ [⟨nm, .int (st.last_number + 1), pyStr v⟩]⟩ := by
  simp [addMember, initMember, h]

/-- A declaration with an explicit `(value, description)` pair appends a
member carrying that explicit value, provided it is fresh; the counter is
still bumped. -/
theorem addMember_explicit_step (st : EnumState) (nm : String) (v d : PyVal)
    (h : st.members.any (fun m => pyEq m.value v) = false) :
    addMember st nm [v, d] =
      .ok ⟨st.last_number + 1, st.members ++ [⟨nm, v, pyStr d⟩]⟩ := by
  simp [addMember, initMember, h]

/-- Any successful declaration step bumps the counter by one and either
leaves the member list unchanged (the declaration aliased an existing
member) or appends one member whose value is fresh. -/
theorem addMember_ok (st : EnumState) (n : String) (args : List PyVal)
    (st' : EnumState) (h : addMember st n args = .ok st') :
    st'.last_number = st.last_number + 1 ∧
    (st'.members = st.members ∨
     ∃ v d, st'.members = st.members ++ [⟨n, v, d⟩] ∧
       ∀ m ∈ st.members, pyEq m.value v = false) := by
  unfold addMember at h
  cases hi : initMember (.int (st.last_number + 1)) args with
  | error e => rw [hi] at h; exact absurd h (by simp)
  | ok p =>
    obtain ⟨v, d⟩ := p
    rw [hi] at h
    dsimp only at h
    by_cases ha : st.members.any (fun m => pyEq m.value v) = true
    · rw [if_pos ha] at h
      cases h
      exact ⟨rfl, Or.inl rfl⟩
    · rw [if_neg ha] at h
      cases h
      refine ⟨rfl, Or.inr ⟨v, d, rfl, ?_⟩⟩
      intro m hm
      have := List.any_eq_false.mp (Bool.not_eq_true _ ▸ ha) m hm
      simpa using this

/-- Running the construction loop over an appended declaration list first
runs the prefix; if that succeeds, the suffix continues from its state. -/
theorem buildAux_append_ok (l₁ l₂ : List (String × List PyVal))
    (st st₁ : EnumState) (h : buildAux st l₁ = .ok st₁) :
    buildAux st (l₁ ++ l₂) = buildAux st₁ l₂ := by
  induction l₁ generalizing st with
  | nil =>
    rw [List.nil_append]
    cases h
    rfl
  | cons p rest ih =>
    obtain ⟨n, args⟩ := p
    rw [List.cons_append]
    rw [buildAux] at h
    conv_lhs => rw [buildAux]
    cases ha : addMember st n args with
    | error e => rw [ha] at h; simp at h
    | ok st' =>
      rw [ha] at h
      dsimp only at h ⊢
      exact ih st' h

/-- Member names produced by the construction loop form a sublist of the
incoming member names followed by the declaration names (each declaration
contributes at most one member, carrying its own name, in order). -/
theorem buildAux_names_sublist (decls : List (String × List PyVal))
    (st st' : EnumState) (h : buildAux st decls = .ok st') :
    (st'.members.map Member.name).Sublist
      (st.members.map Member.name ++ decls.map Prod.fst) := by
  induction decls generalizing st with
  | nil =>
    cases h
    simp
  | cons p rest ih =>
    obtain ⟨n, args⟩ := p
    rw [buildAux] at h
    cases ha : addMember st n args with
    | error e => rw [ha] at h; simp at h
    | ok st₁ =>
      rw [ha] at h
      dsimp only at h
      have hsub := ih st₁ h
      obtain ⟨-, hm⟩ := addMember_ok st n args st₁ ha
      rcases hm with heq | ⟨v, d, heq, -⟩
      · rw [heq] at hsub
        refine hsub.trans ?_
        rw [List.map_cons]
        exact List.Sublist.append_left (List.sublist_cons_self _ _) _
      · rw [heq, List.map_append, List.append_assoc] at hsub
        simpa using hsub

/-- The values of the members produced by the construction loop are pairwise
not Python-`==` (the alias check drops any duplicate). -/
theorem buildAux_values_pairwise (decls : List (String × List PyVal))
    (st st' : EnumState) (h : buildAux st decls = .ok st')
    (hp : st.members.Pairwise (fun a b => pyEq a.value b.value = false)) :
    st'.members.Pairwise (fun a b => pyEq a.value b.value = false) := by
  induction decls generalizing st with
  | nil => cases h; exact hp
  | cons p rest ih =>
    obtain ⟨n, args⟩ := p
    rw [buildAux] at h
    cases ha : addMember st n args with
    | error e => rw [ha] at h; simp at h
    | ok st₁ =>
      rw [ha] at h
      dsimp only at h
      refine ih st₁ h ?_
      obtain ⟨-, hm⟩ := addMember_ok st n args st₁ ha
      rcases hm with heq | ⟨v, d, heq, hfresh⟩
      · rw [heq]; exact hp
      · rw [heq, List.pairwise_append]
        refine ⟨hp, List.pairwise_singleton _ _, ?_⟩
        intro a ha' b hb
        rw [List.mem_singleton] at hb
        subst hb
        exact hfresh a ha'

/-- Each declaration adds at most one member. -/
theorem buildAux_length_le (decls : List (String × List PyVal))
    (st st' : EnumState) (h : buildAux st decls = .ok st') :
    st'.members.length ≤ st.members.length + decls.length := by
  induction decls generalizing st with
  | nil => cases h; simp
  | cons p rest ih =>
    obtain ⟨n, args⟩ := p
    rw [buildAux] at h
    cases ha : addMember st n args with
    | error e => rw [ha] at h; simp at h
    | ok st₁ =>
      rw [ha] at h
      dsimp only at h
      have hle := ih st₁ h
      obtain ⟨-, hm⟩ := addMember_ok st n args st₁ ha
      rcases hm with heq | ⟨v, d, heq, -⟩ <;> rw [heq] at hle <;>
        simp only [List.length_append, List.length_singleton, List.length_cons,
          List.length_nil] at hle ⊢ <;>
        omega

/-- Reference run for description-only declarations: starting at value `n`,
the k-th declaration becomes a member with value `n + k` and doc the string
form of its single argument. -/
def autoRun (n : Int) : List (String × List PyVal) → List Member
  | [] => []
  | (nm, args) :: rest => ⟨nm, .int n, pyStr (args.headD .none)⟩ :: autoRun (n + 1) rest

/-- `autoRun` keeps one member per declaration. -/
theorem autoRun_length (n : Int) (decls : List (String × List PyVal)) :
    (autoRun n decls).length = decls.length := by
  induction decls generalizing n with
  | nil => rfl
  | cons p rest ih =>
    obtain ⟨nm, args⟩ := p
    simp [autoRun, ih]

/-- The k-th member of `autoRun n decls` has value `n + k`. -/
theorem autoRun_get_value : (decls : List (String × List PyVal)) → (n : Int) →
    (k : Nat) → (hk : k < (autoRun n decls).length) →
    ((autoRun n decls).get ⟨k, hk⟩).value = .int (n + k)
  | [], n, k, hk => by simp [autoRun] at hk
  | (nm, args) :: rest, n, 0, hk => by simp [autoRun]
  | (nm, args) :: rest, n, (k' + 1), hk => by
    have h2 : k' < (autoRun (n + 1) rest).length := by
      have hlen : (autoRun n ((nm, args) :: rest)).length =
          (autoRun (n + 1) rest).length + 1 := rfl
      omega
    have hrec := autoRun_get_value rest (n + 1) k' h2
    rw [show ((autoRun n ((nm, args) :: rest)).get ⟨k' + 1, hk⟩) =
        ((autoRun (n + 1) rest).get ⟨k', h2⟩) from rfl]
    rw [hrec]
    congr 1
    push_cast
    ring

/-- On description-only declarations, the construction loop succeeds and
produces exactly `autoRun` from the next counter value: each new member's
value `counter + 1` exceeds every existing member value, so the alias check
never fires. -/
theorem buildAux_all_auto (decls : List (String × List PyVal)) (st : EnumState)
    (hargs : ∀ d ∈ decls, d.2.length = 1)
    (hbound : ∀ m ∈ st.members, ∃ w : Int, m.value = .int w ∧ w ≤ st.last_number) :
    buildAux st decls =
      .ok ⟨st.last_number + decls.length,
           st.members ++ autoRun (st.last_number + 1) decls⟩ := by
  induction decls generalizing st with
  | nil => simp [buildAux, autoRun]
  | cons p rest ih =>
    obtain ⟨n, args⟩ := p
    obtain ⟨v, hv⟩ := List.length_eq_one.mp (hargs (n, args) (List.mem_cons_self _ _))
    subst hv
    rw [buildAux]
    have hfresh : st.members.any
        (fun m => pyEq m.value (.int (st.last_number + 1))) = false := by
      rw [List.any_eq_false]
      intro m hm
      obtain ⟨w, hw, hwle⟩ := hbound m hm
      rw [hw]
      have hne : w ≠ st.last_number + 1 := by omega
      simp [pyEq, hne]
    rw [addMember_auto_step st n v hfresh]
    dsimp only
    have hargsRest : ∀ d ∈ rest, d.2.length = 1 :=
      fun d hd => hargs d (List.mem_cons_of_mem _ hd)
    have hb2 : ∀ m ∈ st.members ++ [(⟨n, .int (st.last_number + 1), pyStr v⟩ : Member)],
        ∃ w : Int, m.value = .int w ∧ w ≤ st.last_number + 1 := by
      intro m hm
      rw [List.mem_append] at hm
      rcases hm with hm | hm
      · obtain ⟨w, hw, hwle⟩ := hbound m hm
        exact ⟨w, hw, by omega⟩
      · rw [List.mem_singleton] at hm
        subst hm
        exact ⟨st.last_number + 1, rfl, le_refl _⟩
    refine Eq.trans (ih ⟨st.last_number + 1,
      st.members ++ [⟨n, .int (st.last_number + 1), pyStr v⟩]⟩ hargsRest hb2) ?_
    simp only [autoRun, List.headD_cons, Except.ok.injEq, EnumState.mk.injEq,
      List.length_cons, List.append_assoc, List.singleton_append]
    constructor
    · push_cast
      ring
    · trivial

/-- With pairwise-distinct configured key names, `get_dict` is the
three-entry dict in insertion order. -/
theorem get_dict_eq (cfg : EnumConfig) (m : Member)
    (h12 : cfg.dict_name ≠ cfg.dict_value) (h13 : cfg.dict_name ≠ cfg.dict_doc)
    (h23 : cfg.dict_value ≠ cfg.dict_doc) :
    get_dict cfg m = [(cfg.dict_name, .str m.name), (cfg.dict_value, m.value),
      (cfg.dict_doc, .str m.doc)] := by
  simp [get_dict, dictSet, h12, h13, h23]

/-- `dictSet` always leaves its key present. -/
theorem dictSet_any_self (d : PyDict) (k : String) (v : PyVal) :
    (dictSet d k v).any (fun p => p.1 == k) = true := by
  unfold dictSet
  split
  case isTrue h =>
    rw [List.any_eq_true] at h ⊢
    obtain ⟨p, hp, hpk⟩ := h
    refine ⟨(k, v), List.mem_map.mpr ⟨p, hp, ?_⟩, by simp⟩
    simp [hpk]
  case isFalse h => simp

/-- Overwriting an existing key does not change the key list. -/
theorem dictKeys_dictSet_of_mem (d : PyDict) (k : String) (v : PyVal)
    (h : d.any (fun p => p.1 == k) = true) :
    dictKeys (dictSet d k v) = dictKeys d := by
  unfold dictSet dictKeys
  rw [if_pos h, List.map_map]
  apply List.map_congr_left
  intro p hp
  simp only [Function.comp_apply]
  by_cases hpk : (p.1 == k) = true
  · rw [if_pos hpk]
    exact (eq_of_beq hpk).symm
  · rw [if_neg hpk]

/-- `get_msg` never changes the key list of the exported dict: it either
returns `get_dict` unchanged or overwrites the (present) doc key. -/
theorem dictKeys_get_msg (cfg : EnumConfig) (m : Member) (param : PyVal) :
    dictKeys (get_msg cfg m param) = dictKeys (get_dict cfg m) := by
  unfold get_msg
  by_cases ht : pyTruthy param = true
  · rw [if_pos ht]
    exact dictKeys_dictSet_of_mem _ _ _ (dictSet_any_self _ _ _)
  · rw [if_neg ht]

/-- With pairwise-distinct configured key names, the doc key of `get_dict`
reads back the item's description. -/
theorem dictGetStr_get_dict_doc (cfg : EnumConfig) (m : Member)
    (h13 : cfg.dict_name ≠ cfg.dict_doc) (h23 : cfg.dict_value ≠ cfg.dict_doc) :
    dictGetStr (get_dict cfg m) cfg.dict_doc = m.doc := by
  have e13 : (cfg.dict_name == cfg.dict_doc) = false := beq_eq_false_iff_ne.mpr h13
  have e23 : (cfg.dict_value == cfg.dict_doc) = false := beq_eq_false_iff_ne.mpr h23
  by_cases h12 : cfg.dict_name = cfg.dict_value
  · simp [get_dict, dictSet, dictGetStr, dictGet, List.find?, h12, e13, e23]
  · rw [get_dict_eq cfg m h12 h13 h23]
    simp [dictGetStr, dictGet, List.find?, e13, e23]

/-! ### Claim theorems -/

/-- C1 (counterexample): with initial number 400 and items `A=(desc "x")`,
`B=(desc "y")`, `C=(409, "z")`, `D=(desc "w")`, the code assigns `D` the
value 403 — the auto counter just keeps counting declarations — and 403 is
not the 410 the claim promises (`__init__` overrides `_value_` but never
writes `__last_number__` back). -/
theorem c1_explicit_baseline_counterexample :
    buildEnum ⟨400, "name", "value", "doc"⟩
      [("A", [.str "x"]), ("B", [.str "y"]), ("C", [.int 409, .str "z"]),
       ("D", [.str "w"])] =
    .ok [⟨"A", .int 400, "x"⟩, ⟨"B", .int 401, "y"⟩, ⟨"C", .int 409, "z"⟩,
         ⟨"D", .int 403, "w"⟩] ∧ (403 : Int) ≠ 410 :=
  ⟨rfl, by decide⟩

/-- C1 (amended): an explicit `(value, description)` pair sets that item's
own value verbatim but does not become the baseline for later auto-numbered
items: the counter continues from the count of declarations, so with initial
number `N` and items `A, B, C=(e, _), D`, member `D` gets `N + 3` (not
`e + 1`), provided `e` does not collide with any of the auto values (no
aliasing). -/
theorem c1_explicit_value_not_baseline (cfg : EnumConfig)
    (nA nB nC nD x y z w : String) (e : PyVal)
    (hA : pyEq (.int cfg.initial_number) e = false)
    (hB : pyEq (.int (cfg.initial_number + 1)) e = false)
    (hD : pyEq e (.int (cfg.initial_number + 3)) = false) :
    buildEnum cfg
      [(nA, [.str x]), (nB, [.str y]), (nC, [e, .str z]), (nD, [.str w])] =
    .ok [⟨nA, .int cfg.initial_number, x⟩, ⟨nB, .int (cfg.initial_number + 1), y⟩,
         ⟨nC, e, z⟩, ⟨nD, .int (cfg.initial_number + 3), w⟩] := by
  have s1 : addMember ⟨cfg.initial_number - 1, []⟩ nA [.str x] =
      .ok ⟨cfg.initial_number, [⟨nA, .int cfg.initial_number, x⟩]⟩ := by
    rw [addMember_auto_step _ _ _ (by rfl)]
    simp only [pyStr, List.nil_append, List.cons_append, Except.ok.injEq,
      EnumState.mk.injEq, Member.mk.injEq, PyVal.int.injEq, List.cons.injEq,
      and_true, true_and]
    omega
  have s2 : addMember ⟨cfg.initial_number, [⟨nA, .int cfg.initial_number, x⟩]⟩
      nB [.str y] =
      .ok ⟨cfg.initial_number + 1, [⟨nA, .int cfg.initial_number, x⟩,
        ⟨nB, .int (cfg.initial_number + 1), y⟩]⟩ := by
    rw [addMember_auto_step _ _ _ (by simp [pyEq])]
    simp only [pyStr, List.nil_append, List.cons_append, Except.ok.injEq,
      EnumState.mk.injEq, Member.mk.injEq, PyVal.int.injEq, List.cons.injEq,
      and_true, true_and]
  have s3 : addMember ⟨cfg.initial_number + 1, [⟨nA, .int cfg.initial_number, x⟩,
      ⟨nB, .int (cfg.initial_number + 1), y⟩]⟩ nC [e, .str z] =
      .ok ⟨cfg.initial_number + 2, [⟨nA, .int cfg.initial_number, x⟩,
        ⟨nB, .int (cfg.initial_number + 1), y⟩, ⟨nC, e, z⟩]⟩ := by
    rw [addMember_explicit_step _ _ _ _ (by simp [hA, hB])]
    simp only [pyStr, List.nil_append, List.cons_append, Except.ok.injEq,
      EnumState.mk.injEq, Member.mk.injEq, PyVal.int.injEq, List.cons.injEq,
      and_true, true_and]
    omega
  have s4 : addMember ⟨cfg.initial_number + 2, [⟨nA, .int cfg.initial_number, x⟩,
      ⟨nB, .int (cfg.initial_number + 1), y⟩, ⟨nC, e, z⟩]⟩ nD [.str w] =
      .ok ⟨cfg.initial_number + 3, [⟨nA, .int cfg.initial_number, x⟩,
        ⟨nB, .int (cfg.initial_number + 1), y⟩, ⟨nC, e, z⟩,
        ⟨nD, .int (cfg.initial_number + 3), w⟩]⟩ := by
    rw [addMember_auto_step _ _ _ ?hf]
    case hf =>
      have h2 : cfg.initial_number + 2 + 1 = cfg.initial_number + 3 := by ring
      rw [h2]
      simp [pyEq, hD]
    simp only [pyStr, List.nil_append, List.cons_append, Except.ok.injEq,
      EnumState.mk.injEq, Member.mk.injEq, PyVal.int.injEq, List.cons.injEq,
      and_true, true_and]
    omega
  unfold buildEnum
  rw [buildAux, s1]
  dsimp only
  rw [buildAux, s2]
  dsimp only
  rw [buildAux, s3]
  dsimp only
  rw [buildAux, s4]
  dsimp only
  rw [buildAux]
  rfl

/-- C1 (witness): the amended claim at the spec's own example — initial
number 400, explicit value 409, following plain item gets 403. -/
theorem c1_explicit_value_not_baseline_witness :
    buildEnum ⟨400, "name", "value", "doc"⟩
      [("A", [.str "x"]), ("B", [.str "y"]), ("C", [.int 409, .str "z"]),
       ("D", [.str "w"])] =
    .ok [⟨"A", .int 400, "x"⟩, ⟨"B", .int 401, "y"⟩, ⟨"C", .int 409, "z"⟩,
         ⟨"D", .int 403, "w"⟩] :=
  c1_explicit_value_not_baseline ⟨400, "name", "value", "doc"⟩
    "A" "B" "C" "D" "x" "y" "z" "w" (.int 409) (by decide) (by decide) (by decide)

/-- C2: when every item is declared with only a description, the k-th
declared item (0-indexed `k`) receives value `__initial_number__ + k`; in
particular the first gets exactly the initial number. -/
theorem c2_all_auto_values (cfg : EnumConfig)
    (decls : List (String × List PyVal))
    (hargs : ∀ d ∈ decls, d.2.length = 1) :
    ∃ ms, buildEnum cfg decls = .ok ms ∧ ms.length = decls.length ∧
      ∀ k (hk : k < ms.length),
        (ms.get ⟨k, hk⟩).value = .int (cfg.initial_number + k) := by
  have hN : cfg.initial_number - 1 + 1 = cfg.initial_number := by ring
  refine ⟨autoRun cfg.initial_number decls, ?_, autoRun_length _ _, ?_⟩
  · unfold buildEnum
    rw [buildAux_all_auto decls ⟨cfg.initial_number - 1, []⟩ hargs (by simp)]
    dsimp only [Except.map]
    rw [List.nil_append, hN]
  · intro k hk
    exact autoRun_get_value decls cfg.initial_number k hk

/-- C2 (witness): with the default initial number 1 and two
description-only items, values are 1 and 2. -/
theorem c2_all_auto_values_witness :
    (∀ d ∈ ([("A", [PyVal.str "a"]), ("B", [PyVal.str "b"])] :
        List (String × List PyVal)), d.2.length = 1) ∧
    ∃ ms, buildEnum {} [("A", [PyVal.str "a"]), ("B", [PyVal.str "b"])] = .ok ms ∧
      ms.length = 2 ∧
      ∀ k (hk : k < ms.length), (ms.get ⟨k, hk⟩).value = .int (1 + k) :=
  ⟨by decide, c2_all_auto_values {} _ (by decide)⟩

/-- C3: an item declared with an explicit `(value, description)` pair
exports exactly that value (of any type — the auto counter value is
replaced) and the string form of the second argument as its description. -/
theorem c3_explicit_pair_verbatim (cfg : EnumConfig)
    (decls : List (String × List PyVal)) (st : EnumState) (nm : String)
    (v d : PyVal)
    (hok : buildAux ⟨cfg.initial_number - 1, []⟩ decls = .ok st)
    (hfresh : ∀ m ∈ st.members, pyEq m.value v = false) :
    buildEnum cfg (decls ++ [(nm, [v, d])]) =
      .ok (st.members ++ [⟨nm, v, pyStr d⟩]) := by
  have hf : st.members.any (fun m => pyEq m.value v) = false :=
    List.any_eq_false.mpr (fun m hm => by simp [hfresh m hm])
  unfold buildEnum
  rw [buildAux_append_ok decls [(nm, [v, d])] _ st hok]
  rw [buildAux, addMember_explicit_step st nm v d hf]
  dsimp only
  rw [buildAux]
  rfl

/-- C3 (witness): the sample table's `MissingAPPID = ("10001", ...)` pattern —
a string-typed explicit value is exported verbatim with its description. -/
theorem c3_explicit_pair_verbatim_witness :
    buildEnum ⟨1, "error", "code", "msg"⟩
      [("Unauthorized", [PyVal.str "10000", PyVal.str "auth unknown error"]),
       ("MissingAPPID", [PyVal.str "10001", PyVal.str "missing appid"])] =
    .ok [⟨"Unauthorized", PyVal.str "10000", "auth unknown error"⟩,
         ⟨"MissingAPPID", PyVal.str "10001", "missing appid"⟩] :=
  c3_explicit_pair_verbatim ⟨1, "error", "code", "msg"⟩
    [("Unauthorized", [PyVal.str "10000", PyVal.str "auth unknown error"])]
    ⟨1, [⟨"Unauthorized", PyVal.str "10000", "auth unknown error"⟩]⟩
    "MissingAPPID" (PyVal.str "10001") (PyVal.str "missing appid")
    rfl (by decide)

/-- C5: declaring an item with more than two positional initializer
arguments (e.g. three) raises `TypeError` during construction. -/
theorem c5_too_many_args_error (autoValue : PyVal) (args : List PyVal)
    (h : 2 < args.length) :
    initMember autoValue args = .error .tooManyArgs := by
  unfold initMember
  rw [if_pos h]

/-- C5 (witness): three initializer arguments fail. -/
theorem c5_too_many_args_error_witness :
    2 < ([PyVal.str "a", PyVal.str "b", PyVal.str "c"] : List PyVal).length ∧
    initMember (PyVal.int 1) [PyVal.str "a", PyVal.str "b", PyVal.str "c"] =
      .error .tooManyArgs :=
  ⟨by decide, c5_too_many_args_error (PyVal.int 1) _ (by decide)⟩

/-- C10: a declaration with zero initializer arguments also fails at
construction time: unpacking `value, *doc = args` raises, and the `except`
clause converts it into the cannot-be-turned-into-a-string `TypeError`. -/
theorem c10_zero_args_error (cfg : EnumConfig) (nm : String)
    (rest : List (String × List PyVal)) :
    buildEnum cfg ((nm, []) :: rest) = .error .notConvertible := rfl

/-- C4 (counterexample): a supplied but falsy `param` (here the empty list)
is not substituted — `if param:` is false, so `get_msg` returns the dict
with the raw template, while the claim demands the formatted description
for every supplied `param`. -/
theorem c4_falsy_param_counterexample :
    get_msg {} ⟨"MissingArguments", .str "20002", "missing \x7b\x7d"⟩ (.list []) =
      get_dict {} ⟨"MissingArguments", .str "20002", "missing \x7b\x7d"⟩ ∧
    dictGetStr (get_msg {} ⟨"MissingArguments", .str "20002", "missing \x7b\x7d"⟩
      (.list [])) "doc" = "missing \x7b\x7d" ∧
    pyFormat "missing \x7b\x7d" (.list []) = "missing []" ∧
    "missing \x7b\x7d" ≠ "missing []" :=
  ⟨rfl, rfl, rfl, by decide⟩

/-- C4 (amended): for a truthy `param`, `get_msg` returns `get_dict` with
only the doc field replaced by the template formatted with `param` (Python
`str()` rendering inside lists), name and value fields unchanged; a falsy
`param` (e.g. `None` or an empty list) leaves the dict unformatted. -/
theorem c4_truthy_param_formats (cfg : EnumConfig) (m : Member) (param : PyVal)
    (ht : pyTruthy param = true)
    (h12 : cfg.dict_name ≠ cfg.dict_value) (h13 : cfg.dict_name ≠ cfg.dict_doc)
    (h23 : cfg.dict_value ≠ cfg.dict_doc) :
    get_msg cfg m param =
      [(cfg.dict_name, .str m.name), (cfg.dict_value, m.value),
       (cfg.dict_doc, .str (pyFormat m.doc param))] := by
  have e13 : (cfg.dict_name == cfg.dict_doc) = false := beq_eq_false_iff_ne.mpr h13
  have e23 : (cfg.dict_value == cfg.dict_doc) = false := beq_eq_false_iff_ne.mpr h23
  unfold get_msg
  rw [if_pos ht, dictGetStr_get_dict_doc cfg m h13 h23, get_dict_eq cfg m h12 h13 h23]
  simp [dictSet, e13, e23]
  exact ⟨fun h => absurd h h13, fun h => absurd h h23⟩

/-- C4 (witness): the spec's example — `param=["10001"]` on the template
`missing \x7b\x7d` yields the Python-style description. -/
theorem c4_truthy_param_formats_witness :
    pyTruthy (PyVal.list [PyVal.str "10001"]) = true ∧
    get_msg {} ⟨"MissingArguments", PyVal.str "20002", "missing \x7b\x7d"⟩
      (PyVal.list [PyVal.str "10001"]) =
      [("name", PyVal.str "MissingArguments"), ("value", PyVal.str "20002"),
       ("doc", PyVal.str "missing [\x2710001\x27]")] :=
  ⟨rfl, c4_truthy_param_formats {}
    ⟨"MissingArguments", PyVal.str "20002", "missing \x7b\x7d"⟩
    (PyVal.list [PyVal.str "10001"]) rfl (by decide) (by decide) (by decide)⟩

/-- C6: after construction, member names are pairwise distinct and member
values are pairwise distinct — duplicate declaration names are rejected by
Python's class body (taken as hypothesis) and duplicate values are collapsed
into aliases by the construction loop.  Immutability holds inherently in
this functional embedding: a member is a value fixed at construction. -/
theorem c6_names_values_unique (cfg : EnumConfig)
    (decls : List (String × List PyVal)) (ms : List Member)
    (hnames : (decls.map Prod.fst).Nodup)
    (hok : buildEnum cfg decls = .ok ms) :
    (ms.map Member.name).Nodup ∧ (ms.map Member.value).Nodup := by
  unfold buildEnum at hok
  cases hb : buildAux ⟨cfg.initial_number - 1, []⟩ decls with
  | error e => rw [hb] at hok; simp [Except.map] at hok
  | ok st =>
    rw [hb] at hok
    dsimp only [Except.map] at hok
    cases hok
    constructor
    · have hsub := buildAux_names_sublist decls _ st hb
      exact hnames.sublist (by simpa using hsub)
    · have hpw := buildAux_values_pairwise decls _ st hb (by simp)
      show (st.members.map Member.value).Pairwise (· ≠ ·)
      rw [List.pairwise_map]
      exact hpw.imp (fun h => ne_of_pyEq_false h)

/-- C6 (witness): a two-member enumeration has distinct names and values. -/
theorem c6_names_values_unique_witness :
    ((([("A", [PyVal.str "a"]), ("B", [PyVal.str "b"])] :
        List (String × List PyVal)).map Prod.fst).Nodup) ∧
    buildEnum {} [("A", [PyVal.str "a"]), ("B", [PyVal.str "b"])] =
      .ok [⟨"A", .int 1, "a"⟩, ⟨"B", .int 2, "b"⟩] ∧
    (([(⟨"A", .int 1, "a"⟩ : Member), ⟨"B", .int 2, "b"⟩]).map Member.name).Nodup ∧
    (([(⟨"A", .int 1, "a"⟩ : Member), ⟨"B", .int 2, "b"⟩]).map Member.value).Nodup :=
  ⟨by decide, rfl,
    c6_names_values_unique {} [("A", [PyVal.str "a"]), ("B", [PyVal.str "b"])]
      [⟨"A", .int 1, "a"⟩, ⟨"B", .int 2, "b"⟩] (by decide) rfl⟩

/-- C7 (counterexample): two declared items with the same explicit value
yield a single member (the second declaration becomes an alias and is
skipped by iteration), so `get_choices` has one pair although two items
were declared — its length is not the number of declared items. -/
theorem c7_choices_counterexample :
    buildEnum {} [("A", [.int 5, .str "x"]), ("B", [.int 5, .str "y"])] =
      .ok [⟨"A", .int 5, "x"⟩] ∧
    get_choices [⟨"A", .int 5, "x"⟩] = [(.int 5, "x")] ∧
    ([("A", [PyVal.int 5, PyVal.str "x"]), ("B", [PyVal.int 5, PyVal.str "y"])] :
      List (String × List PyVal)).length = 2 ∧ (1 : Nat) ≠ 2 :=
  ⟨rfl, rfl, rfl, by decide⟩

/-- C7 (amended): `get_choices` returns one `(value, description)` pair per
member, in declaration order; its length equals the member count, which is
at most the declared-item count (strictly less exactly when a declaration's
value duplicated an earlier member's and became an alias). -/
theorem c7_choices_per_member (cfg : EnumConfig)
    (decls : List (String × List PyVal)) (ms : List Member)
    (hok : buildEnum cfg decls = .ok ms) :
    (get_choices ms).length = ms.length ∧ ms.length ≤ decls.length ∧
    ∀ k, (get_choices ms).get? k = (ms.get? k).map (fun m => (m.value, m.doc)) := by
  refine ⟨by simp [get_choices], ?_, ?_⟩
  · unfold buildEnum at hok
    cases hb : buildAux ⟨cfg.initial_number - 1, []⟩ decls with
    | error e => rw [hb] at hok; simp [Except.map] at hok
    | ok st =>
      rw [hb] at hok
      dsimp only [Except.map] at hok
      cases hok
      have := buildAux_length_le decls _ st hb
      simpa using this
  · intro k
    simp [get_choices, List.get?_map]

/-- C7 (witness): the amended claim at a one-item enumeration. -/
theorem c7_choices_per_member_witness :
    buildEnum {} [("A", [PyVal.str "a"])] = .ok [⟨"A", .int 1, "a"⟩] ∧
    ((get_choices [⟨"A", .int 1, "a"⟩]).length = 1 ∧
      (1 : Nat) ≤ 1 ∧
      ∀ k, (get_choices [(⟨"A", .int 1, "a"⟩ : Member)]).get? k =
        (([(⟨"A", .int 1, "a"⟩ : Member)]).get? k).map (fun m => (m.value, m.doc))) :=
  ⟨rfl, c7_choices_per_member {} [("A", [PyVal.str "a"])] [⟨"A", .int 1, "a"⟩] rfl⟩

/-- C8: `get_dict` produces a mapping whose key list is exactly the three
per-subtype configured key names, with the name key mapped to the item's
name, the value key to its value, and the doc key to its description. -/
theorem c8_get_dict_keys (cfg : EnumConfig) (m : Member)
    (h12 : cfg.dict_name ≠ cfg.dict_value) (h13 : cfg.dict_name ≠ cfg.dict_doc)
    (h23 : cfg.dict_value ≠ cfg.dict_doc) :
    dictKeys (get_dict cfg m) = [cfg.dict_name, cfg.dict_value, cfg.dict_doc] ∧
    dictGet (get_dict cfg m) cfg.dict_name = some (.str m.name) ∧
    dictGet (get_dict cfg m) cfg.dict_value = some m.value ∧
    dictGet (get_dict cfg m) cfg.dict_doc = some (.str m.doc) := by
  have e12 : (cfg.dict_name == cfg.dict_value) = false := beq_eq_false_iff_ne.mpr h12
  have e13 : (cfg.dict_name == cfg.dict_doc) = false := beq_eq_false_iff_ne.mpr h13
  have e23 : (cfg.dict_value == cfg.dict_doc) = false := beq_eq_false_iff_ne.mpr h23
  rw [get_dict_eq cfg m h12 h13 h23]
  refine ⟨?_, ?_, ?_, ?_⟩ <;> simp [dictKeys, dictGet, List.find?, e12, e13, e23]

/-- C8 (witness): default key names name/value/doc on a concrete item. -/
theorem c8_get_dict_keys_witness :
    dictKeys (get_dict {} ⟨"BadRequest", .int 400, "bad request"⟩) =
      ["name", "value", "doc"] ∧
    dictGet (get_dict {} ⟨"BadRequest", .int 400, "bad request"⟩) "name" =
      some (.str "BadRequest") ∧
    dictGet (get_dict {} ⟨"BadRequest", .int 400, "bad request"⟩) "value" =
      some (.int 400) ∧
    dictGet (get_dict {} ⟨"BadRequest", .int 400, "bad request"⟩) "doc" =
      some (.str "bad request") :=
  c8_get_dict_keys {} ⟨"BadRequest", .int 400, "bad request"⟩
    (by decide) (by decide) (by decide)

/-- C9: `get_exception(status, param)` is total and returns an error object
whose `status` is the supplied status and whose `msg` is `get_msg(param)` —
a mapping with exactly the three configured keys. -/
theorem c9_get_exception_fields (cfg : EnumConfig) (m : Member)
    (status param : PyVal)
    (h12 : cfg.dict_name ≠ cfg.dict_value) (h13 : cfg.dict_name ≠ cfg.dict_doc)
    (h23 : cfg.dict_value ≠ cfg.dict_doc) :
    (get_exception cfg m status param).status = status ∧
    (get_exception cfg m status param).msg = get_msg cfg m param ∧
    dictKeys (get_exception cfg m status param).msg =
      [cfg.dict_name, cfg.dict_value, cfg.dict_doc] := by
  refine ⟨rfl, rfl, ?_⟩
  show dictKeys (get_msg cfg m param) = _
  rw [dictKeys_get_msg, get_dict_eq cfg m h12 h13 h23]
  rfl

/-- C9 (witness): the sample configuration (error/code/msg keys) on a
concrete item, status 404 and a truthy param. -/
theorem c9_get_exception_fields_witness :
    (get_exception ⟨1, "error", "code", "msg"⟩
      ⟨"NotFound", .str "40004", "resource missing \x7b\x7d"⟩
      (.int 404) (.str "book")).status = .int 404 ∧
    (get_exception ⟨1, "error", "code", "msg"⟩
      ⟨"NotFound", .str "40004", "resource missing \x7b\x7d"⟩
      (.int 404) (.str "book")).msg =
      get_msg ⟨1, "error", "code", "msg"⟩
        ⟨"NotFound", .str "40004", "resource missing \x7b\x7d"⟩ (.str "book") ∧
    dictKeys (get_exception ⟨1, "error", "code", "msg"⟩
      ⟨"NotFound", .str "40004", "resource missing \x7b\x7d"⟩
      (.int 404) (.str "book")).msg = ["error", "code", "msg"] :=
  c9_get_exception_fields ⟨1, "error", "code", "msg"⟩
    ⟨"NotFound", .str "40004", "resource missing \x7b\x7d"⟩
    (.int 404) (.str "book") (by decide) (by decide) (by decide)

end DocEnum
